import Mathlib

set_option autoImplicit false

namespace ReqCockpit

/-- Canonical supplier-status taxonomy of the reconciliation core
(spec §3, invariant "Canonical status set is closed"). -/
inductive CanonicalStatus where
  | Accepted
  | ClarificationNeeded
  | Rejected
  | Unknown
  deriving DecidableEq, Repr

/-- String rendering of a canonical status value. -/
def CanonicalStatus.asString : CanonicalStatus → String
  | .Accepted => "Accepted"
  | .ClarificationNeeded => "ClarificationNeeded"
  | .Rejected => "Rejected"
  | .Unknown => "Unknown"

/-- The closed canonical status set, as status strings (spec §3). -/
def canonicalStatusStrings : List String :=
  ["Accepted", "ClarificationNeeded", "Rejected", "Unknown"]

/-- Status option values offered for selection by the decision panel
select element (`DecisionPanel` component in the source). -/
def decisionPanelStatusOptions : List String :=
  ["", "Accepted", "Rejected", "Modified", "Deferred"]

/-- Status option values offered by the filter toolbar's status select
(`FilterToolbar` component in the source). -/
def filterToolbarStatusOptions : List String :=
  ["", "Accepted", "Clarification Needed", "Rejected", "Conflict"]

/-- Badge color chosen by `StatusCellRenderer` for a status string: the
source initializes `color` to gray and overrides it for the three
recognized status strings. -/
def statusCellColor (status : String) : String :=
  if status = "Accepted" then "green"
  else if status = "Clarification Needed" then "yellow"
  else if status = "Rejected" then "red"
  else "gray"

/-- Does the character list start with the pattern `pat`? -/
def startsWithChars : List Char → List Char → Bool
  | [], _ => true
  | _ :: _, [] => false
  | a :: as, b :: bs => a == b && startsWithChars as bs

/-- Does the character list contain `pat` as a contiguous run? -/
def charsContain (pat : List Char) : List Char → Bool
  | [] => startsWithChars pat []
  | c :: rest => startsWithChars pat (c :: rest) || charsContain pat rest

/-- Substring containment on strings, used for the fuzzy synonym match. -/
def strContains (s pat : String) : Bool :=
  charsContain pat.data s.data

/-- Normalization key: whitespace-trimmed, lower-cased raw status
(spec §4.3, "exact case-insensitive, whitespace-trimmed match"). -/
def canonKey (s : String) : String :=
  String.mk (((s.data.dropWhile Char.isWhitespace).reverse.dropWhile
    Char.isWhitespace).reverse.map Char.toLower)

/-- Fuzzy synonym group for Accepted (spec §4.3). -/
def acceptedSynonyms : List String := ["accept", "ok", "compliant"]

/-- Fuzzy synonym group for ClarificationNeeded (spec §4.3). -/
def clarificationSynonyms : List String := ["clarif", "tbc", "tbd"]

/-- Fuzzy synonym group for Rejected (spec §4.3). -/
def rejectedSynonyms : List String := ["reject", "not agreed", "nok"]

/-- A status mapping rule: supplier (none = global default), raw status
string, canonical result (spec §3, StatusMappingRule). -/
structure StatusMappingRule where
  supplier : Option String
  rawStatus : String
  canonical : CanonicalStatus
  deriving DecidableEq, Repr

/-- Modelled from the spec: the status harmonizer `normalize(rawStatus,
supplierId) -> (canonicalStatus, matched)` of §4.3 is not under src/ (it
lives in the backend; only its callers are in the frontend sources), so it
is modelled from the spec's resolution order: (1) exact case-insensitive
trimmed match against a per-supplier rule, (2) the same against the global
default rule table, (3) fuzzy containment against the synonym groups in
their listed order, (4) otherwise Unknown with matched = false. -/
def normalize (rules : List StatusMappingRule) (rawStatus : String)
    (supplierId : String) : CanonicalStatus × Bool :=
  let key := canonKey rawStatus
  match rules.find? (fun r => r.supplier == some supplierId && canonKey r.rawStatus == key) with
  | some r => (r.canonical, true)
  | none =>
    match rules.find? (fun r => r.supplier == none && canonKey r.rawStatus == key) with
    | some r => (r.canonical, true)
    | none =>
      if acceptedSynonyms.any (fun p => strContains key p) then
        (CanonicalStatus.Accepted, true)
      else if clarificationSynonyms.any (fun p => strContains key p) then
        (CanonicalStatus.ClarificationNeeded, true)
      else if rejectedSynonyms.any (fun p => strContains key p) then
        (CanonicalStatus.Rejected, true)
      else
        (CanonicalStatus.Unknown, false)

/-- An open attribute bag: an explicit ordered mapping of attribute name
to value carried alongside the modeled fields (spec §9, "Open attribute
bags"). -/
abbrev AttrBag := List (String × String)

/-- The keys of a bag, in order. -/
def bagKeys (b : AttrBag) : List String := b.map Prod.fst

/-- Write one attribute into a bag: replace the value at an existing key
in place, otherwise append the pair at the end (last-write-wins per
attribute, spec §4.2). -/
def setAttr (b : AttrBag) (kv : String × String) : AttrBag :=
  if kv.1 ∈ bagKeys b then
    b.map (fun p => if p.1 = kv.1 then (p.1, kv.2) else p)
  else
    b ++ [kv]

/-- Merge a list of attribute writes into a bag, last write wins. -/
def mergeAttrs (b : AttrBag) (ws : List (String × String)) : AttrBag :=
  ws.foldl setAttr b

/-- The value of the last write to key `k` in a write list, if any. -/
def lastVal : List (String × String) → String → Option String
  | [], _ => none
  | kv :: rest, k =>
    match lastVal rest k with
    | some v => some v
    | none => if kv.1 = k then some kv.2 else none

/-- Rewrite of one bag entry to the last written value, if its key is written. -/
def updLast (ws : List (String × String)) (p : String × String) : String × String :=
  match lastVal ws p.1 with
  | some w => (p.1, w)
  | none => p

/-- A generic parsed record from an exchange document (spec §4.1): the
resolved stable-identifier candidate (none when the record lacks one),
the extracted text, and the record's attribute writes in document order. -/
structure ParsedRecord where
  reqifId : Option String
  text : String
  attrs : List (String × String)
  deriving DecidableEq, Repr

/-- A persisted MasterRequirement row (spec §3): unique per (project,
reqif_id), holding the extracted text and the open attribute bag. -/
structure MasterRequirement where
  reqifId : String
  text : String
  attrs : AttrBag
  deriving DecidableEq, Repr

/-- The identifiers of the persisted rows, in insertion order. -/
def rowKeys (rows : List MasterRequirement) : List String :=
  rows.map MasterRequirement.reqifId

/-- Re-import update of an existing row (spec §4.2): the text is
overwritten and the record's attributes are merged last-write-wins into
the open attribute bag. -/
def updateRow (row : MasterRequirement) (text : String)
    (ws : List (String × String)) : MasterRequirement :=
  { reqifId := row.reqifId, text := text, attrs := mergeAttrs row.attrs ws }

/-- Import summary of `importMaster` (spec §4.2): counts
{created, updated, skipped, warnings}. -/
structure MasterImportSummary where
  created : Nat
  updated : Nat
  skipped : Nat
  warnings : List String
  deriving DecidableEq, Repr

/-- Modelled from the spec: one record step of `importMaster` (§4.2),
which is not under src/ (backend code; only the import wizard caller is
in the frontend sources). A record with a resolved identifier is upserted
keyed by that identifier within the project — an existing row is updated
in place, a fresh row is appended — and an identifier-less record is
skipped with a warning and nothing written (spec §7(b)). -/
def importMasterStep (st : List MasterRequirement × MasterImportSummary)
    (r : ParsedRecord) : List MasterRequirement × MasterImportSummary :=
  match r.reqifId with
  | none =>
    (st.1,
      { st.2 with
        skipped := st.2.skipped + 1
        warnings := st.2.warnings ++ ["record without identifier"] })
  | some k =>
    if k ∈ rowKeys st.1 then
      (st.1.map (fun row => if row.reqifId = k then updateRow row r.text r.attrs else row),
       { st.2 with updated := st.2.updated + 1 })
    else
      (st.1 ++ [{ reqifId := k, text := r.text, attrs := mergeAttrs [] r.attrs }],
       { st.2 with created := st.2.created + 1 })

/-- Modelled from the spec: `importMaster(project, documentRecords)` of
§4.2 — upsert each record into the project's MasterRequirement rows and
return counts {created, updated, skipped, warnings}. -/
def importMaster (rows : List MasterRequirement) (recs : List ParsedRecord) :
    List MasterRequirement × MasterImportSummary :=
  recs.foldl importMasterStep
    (rows, { created := 0, updated := 0, skipped := 0, warnings := [] })

/-- A row set is stable for record `r` when the record's key is already
present and re-applying the record's update to any row at that key is the
identity. -/
def recStable (rows : List MasterRequirement) (r : ParsedRecord) : Prop :=
  ∀ k, r.reqifId = some k →
    k ∈ rowKeys rows ∧
    ∀ row ∈ rows, row.reqifId = k → updateRow row r.text r.attrs = row

/-- A small concrete master document with two identified records. -/
def sampleMasterRecs : List ParsedRecord :=
  [{ reqifId := some "R1", text := "Requirement one", attrs := [("prio", "high")] },
   { reqifId := some "R2", text := "Requirement two", attrs := [] }]

/-- One harmonized feedback row for one requirement in one iteration:
the reporting supplier and its canonical status. -/
structure HarmonizedFeedback where
  supplier : String
  status : CanonicalStatus
  deriving DecidableEq, Repr

/-- Two feedback rows disagree when they come from distinct suppliers,
both carry a non-Accepted status, and the statuses differ (spec §4.4). -/
def disagrees (r₁ r₂ : HarmonizedFeedback) : Bool :=
  r₁.supplier != r₂.supplier &&
  r₁.status != CanonicalStatus.Accepted &&
  r₂.status != CanonicalStatus.Accepted &&
  r₁.status != r₂.status

/-- Result of the conflict detector (spec §4.4). -/
structure ConflictResult where
  isConflict : Bool
  disagreeingSuppliers : List String
  deriving DecidableEq, Repr

/-- Modelled from the spec: the conflict detector `detect` of §4.4 is not
under src/ (backend code; only dashboard/grid consumers are in the
frontend sources). A requirement is flagged iff some pair of rows from
distinct suppliers carries different non-Accepted canonical statuses;
the disagreeing suppliers are those participating in such a pair. -/
def detect (rows : List HarmonizedFeedback) : ConflictResult :=
  { isConflict := rows.any (fun r₁ => rows.any (fun r₂ => disagrees r₁ r₂))
    disagreeingSuppliers :=
      (rows.filter (fun r₁ => rows.any (fun r₂ => disagrees r₁ r₂))).map
        HarmonizedFeedback.supplier }

/-- A persisted SupplierFeedback row (spec §3): unique per
(requirement, iteration, supplier); holds the raw status string, the
harmonized canonical status and the comment. -/
structure SupplierFeedback where
  reqifId : String
  iterationId : String
  supplier : String
  rawStatus : String
  canonicalStatus : CanonicalStatus
  comment : String
  deriving DecidableEq, Repr

/-- A supplier feedback record parsed from one exchange file: the target
requirement identifier plus the raw status and comment attributes. -/
structure FeedbackRecord where
  reqifId : String
  rawStatus : String
  comment : String
  deriving DecidableEq, Repr

/-- One file of a multi-file supplier import, as the wizard submits it:
the supplier name entered for the file, and the outcome of reading the
file — either its parsed records or a document-level failure
(spec §7(a)). -/
inductive SupplierFile where
  | parsed (supplierName : String) (records : List FeedbackRecord)
  | malformed (supplierName : String) (err : String)
  deriving DecidableEq, Repr

/-- Modelled from the spec: one `import_supplier_feedback` backend call
(§4.2, §7), which is not under src/ (only its wizard caller is). A
document-level failure aborts before any write and returns an error with
no state — the call is atomic per call. Otherwise the whole batch
commits: each record whose identifier matches a master requirement is
upserted keyed by (requirement, iteration, supplier) and harmonized
at import time; unmatched records are not written. Returns the committed
row set and the matched count. -/
def importSupplierFeedback (masterKeys : List String)
    (rules : List StatusMappingRule) (db : List SupplierFeedback)
    (iterationId : String) (file : SupplierFile) :
    Except String (List SupplierFeedback × Nat) :=
  match file with
  | .malformed _ e => Except.error e
  | .parsed supplierName records =>
    let matched := records.filter (fun rec => rec.reqifId ∈ masterKeys)
    let newRows := matched.map (fun rec =>
      { reqifId := rec.reqifId
        iterationId := iterationId
        supplier := supplierName
        rawStatus := rec.rawStatus
        canonicalStatus := (normalize rules rec.rawStatus supplierName).1
        comment := rec.comment })
    let cleaned := db.filter (fun row =>
      !(newRows.any (fun nr =>
        nr.reqifId == row.reqifId && nr.iterationId == row.iterationId &&
        nr.supplier == row.supplier)))
    Except.ok (cleaned ++ newRows, matched.length)

/-- The committed state after one wizard-issued call: the new row set on
success, the unchanged row set on error. -/
def commitFile (masterKeys : List String) (rules : List StatusMappingRule)
    (iterationId : String) (db : List SupplierFeedback) (file : SupplierFile) :
    List SupplierFeedback :=
  match importSupplierFeedback masterKeys rules db iterationId file with
  | .ok (db', _) => db'
  | .error _ => db

/-- Sequential commits of a list of files, one backend call per file. -/
def commitFiles (masterKeys : List String) (rules : List StatusMappingRule)
    (iterationId : String) (db : List SupplierFeedback)
    (files : List SupplierFile) : List SupplierFeedback :=
  files.foldl (commitFile masterKeys rules iterationId) db

/-- The loop body of `SupplierImportWizard.handleImport` in the source:
one `import_supplier_feedback` call per file, the scalar results summed
into `totalImported`; the whole loop sits in a single try/catch, so the
first error aborts the loop with an error summary while the commits of
the earlier calls remain in place. -/
def supplierWizardLoop (masterKeys : List String)
    (rules : List StatusMappingRule) (iterationId : String) :
    List SupplierFeedback → Nat → List SupplierFile →
      List SupplierFeedback × String
  | db, total, [] =>
    (db, "Successfully imported feedback for " ++ toString total ++ " requirements.")
  | db, total, f :: rest =>
    match importSupplierFeedback masterKeys rules db iterationId f with
    | .ok (db', n) => supplierWizardLoop masterKeys rules iterationId db' (total + n) rest
    | .error e => (db, "Error importing files: " ++ e)

/-- The function `SupplierImportWizard.handleImport` from the source: an early return
when no files are selected or the iteration id is empty, otherwise the
per-file import loop. Returns the visible feedback rows after the attempt
and the summary message shown to the user. -/
def supplierWizardHandleImport (masterKeys : List String)
    (rules : List StatusMappingRule) (db : List SupplierFeedback)
    (iterationId : String) (files : List SupplierFile) :
    List SupplierFeedback × String :=
  if files.isEmpty ∨ iterationId = "" then (db, "")
  else supplierWizardLoop masterKeys rules iterationId db 0 files

/-- Summary message built by `MasterImportWizard.handleImport` from the
backend result of `import_master_spec`, which it interpolates as a single
number. -/
def masterImportSummaryMessage (result : Nat) : String :=
  "Successfully imported " ++ toString result ++ " requirements."

/-- A supplier sub-record of one aggregation view row (spec §6): status
and comment; the empty sub-record stands for "no feedback given". -/
structure SupplierCell where
  status : String
  comment : String
  deriving DecidableEq, Repr

/-- The empty sub-record used when a supplier gave no feedback. -/
def emptyCell : SupplierCell := { status := "", comment := "" }

/-- A recorded CustRE decision for a (requirement, iteration) pair
(spec §3). -/
structure Decision where
  reqifId : String
  iterationId : String
  status : String
  note : String
  deriving DecidableEq, Repr

/-- One row of the aggregation view (spec §4.5, §6): master fields, one
sub-record per supplier keyed by supplier name, the derived conflict
flag, and the current decision, if any. -/
structure RequirementRow where
  reqifId : String
  text : String
  suppliers : List (String × SupplierCell)
  isConflict : Bool
  decision : Option String
  deriving DecidableEq, Repr

/-- Modelled from the spec: the row built for one master requirement in
one iteration by the aggregation view builder (§4.5), which is not under
src/ (only its grid consumer `CockpitGrid.fetchData` is). Every supplier
of the project gets an entry — the empty sub-record when that supplier
gave no feedback for the requirement, never an absent key. -/
def buildRow (suppliers : List String) (feedback : List SupplierFeedback)
    (decisions : List Decision) (iterationId : String)
    (req : MasterRequirement) : RequirementRow :=
  { reqifId := req.reqifId
    text := req.text
    suppliers := suppliers.map (fun s =>
      (s, match feedback.find? (fun fb =>
            fb.reqifId == req.reqifId && fb.iterationId == iterationId &&
            fb.supplier == s) with
          | some fb => { status := fb.canonicalStatus.asString, comment := fb.comment }
          | none => emptyCell))
    isConflict := (detect ((feedback.filter (fun fb =>
        fb.reqifId == req.reqifId && fb.iterationId == iterationId)).map
        (fun fb => { supplier := fb.supplier, status := fb.canonicalStatus }))).isConflict
    decision := (decisions.find? (fun d =>
        d.reqifId == req.reqifId && d.iterationId == iterationId)).map Decision.status }

/-- View filters (spec §4.5): free-text match against identifier/text,
canonical-status equality, conflict-only toggle, supplier visibility
subset. -/
structure ViewFilters where
  text : Option String
  status : Option String
  conflictOnly : Bool
  visibleSuppliers : Option (List String)
  deriving DecidableEq, Repr

/-- The pure post-join row predicate of one filter set, AND semantics
across the four filter kinds (spec §4.5). -/
def filterPred (f : ViewFilters) (row : RequirementRow) : Bool :=
  (match f.text with
   | none => true
   | some t => strContains row.reqifId t || strContains row.text t) &&
  (match f.status with
   | none => true
   | some st => row.suppliers.any (fun p => p.2.status == st)) &&
  (!f.conflictOnly || row.isConflict) &&
  (match f.visibleSuppliers with
   | none => true
   | some vis => row.suppliers.any (fun p => vis.contains p.1 && !(p.2 == emptyCell)))

/-- The joined, unfiltered view rows: one row per master requirement, in
master insertion order (spec §4.5). -/
def joinedRows (masterRows : List MasterRequirement) (suppliers : List String)
    (feedback : List SupplierFeedback) (decisions : List Decision)
    (iterationId : String) : List RequirementRow :=
  masterRows.map (buildRow suppliers feedback decisions iterationId)

/-- The view under an arbitrary post-join row predicate. -/
def buildViewWith (masterRows : List MasterRequirement) (suppliers : List String)
    (feedback : List SupplierFeedback) (decisions : List Decision)
    (iterationId : String) (p : RequirementRow → Bool) : List RequirementRow :=
  (joinedRows masterRows suppliers feedback decisions iterationId).filter p

/-- Modelled from the spec: `buildView(project, iteration, filters)` of
§4.5 — join master requirements, harmonized feedback, conflict flags and
decisions into one row per requirement, then apply the filters as a pure
post-join predicate. -/
def buildView (masterRows : List MasterRequirement) (suppliers : List String)
    (feedback : List SupplierFeedback) (decisions : List Decision)
    (iterationId : String) (f : ViewFilters) : List RequirementRow :=
  buildViewWith masterRows suppliers feedback decisions iterationId (filterPred f)

/-- A recent project entry (`Project` interface in the source). -/
structure Project where
  name : String
  path : String
  deriving DecidableEq, Repr

/-- The function `api.listRecentProjects` from the source: it awaits the
`list_recent_projects` backend call and parses the string result; the
surrounding try/catch maps any failure — a rejected call or a parse
exception — to the empty list. The backend outcome and the JSON parse
are passed as parameters. -/
def listRecentProjects (outcome : Except String String)
    (parse : String → Except String (List Project)) : List Project :=
  match outcome with
  | .error _ => []
  | .ok s =>
    match parse s with
    | .ok projects => projects
    | .error _ => []

/-- JavaScript line terminators, which `.` does not match in the
`^I-\d\x7b3\x7d_.+$` regex used by the iteration dialog. -/
def isJsLineTerminator (c : Char) : Bool :=
  c = '\n' || c = '\r' || c = '\u2028' || c = '\u2029'

/-- The test `iterationId.match(...)` against `^I-\d\x7b3\x7d_.+$` in
`IterationDialog.handleSubmit`: the string must be exactly `I-`, three
ASCII digits, an underscore, then at least one character, none of them a
line terminator. -/
def iterationIdWellFormed (s : String) : Bool :=
  match s.data with
  | 'I' :: '-' :: d₁ :: d₂ :: d₃ :: '_' :: rest =>
    d₁.isDigit && d₂.isDigit && d₃.isDigit &&
    !rest.isEmpty && rest.all (fun c => !isJsLineTerminator c)
  | _ => false

/-- Visible effects of one `handleSubmit` run of the iteration dialog:
whether `onSubmit` was invoked (and with what), whether `onClose` was
invoked, and the error message state. -/
structure IterationDialogOutcome where
  submitted : Option String
  closed : Bool
  errorMessage : Option String
  deriving DecidableEq, Repr

/-- The function `IterationDialog.handleSubmit` from the source: a non-matching
identifier sets the error message and returns early; a matching one calls
`onSubmit(iterationId)` and then `onClose()`. -/
def handleSubmit (iterationId : String) : IterationDialogOutcome :=
  if iterationIdWellFormed iterationId then
    { submitted := some iterationId, closed := true, errorMessage := none }
  else
    { submitted := none, closed := false,
      errorMessage := some "Invalid format. Must be I-XXX_Description" }


/-- Replacing the value at an existing key preserves the key sequence. -/
theorem bagKeys_map_set (b : AttrBag) (x : String) (v : String) :
    bagKeys (b.map (fun p => if p.1 = x then (p.1, v) else p)) = bagKeys b := by
  simp only [bagKeys, List.map_map]
  apply List.map_congr_left
  intro p _
  by_cases h : p.1 = x <;> simp [h]

/-- Writing an attribute never removes a key. -/
theorem bagKeys_setAttr_superset {k : String} (b : AttrBag) (kv : String × String)
    (h : k ∈ bagKeys b) : k ∈ bagKeys (setAttr b kv) := by
  unfold setAttr
  split
  · rwa [bagKeys_map_set]
  · simp only [bagKeys, List.map_append, List.mem_append]
    left
    exact h

/-- After `setAttr`, the written key is present. -/
theorem setAttr_key_mem (b : AttrBag) (kv : String × String) :
    kv.1 ∈ bagKeys (setAttr b kv) := by
  unfold setAttr
  split
  · next h => rwa [bagKeys_map_set]
  · simp [bagKeys]

/-- Merging attribute writes never removes a key. -/
theorem bagKeys_mergeAttrs_superset {k : String} (ws : List (String × String))
    (b : AttrBag) (h : k ∈ bagKeys b) : k ∈ bagKeys (mergeAttrs b ws) := by
  induction ws generalizing b with
  | nil => exact h
  | cons kv rest ih =>
    exact ih (setAttr b kv) (bagKeys_setAttr_superset b kv h)

/-- Every key written in `ws` is a key of `mergeAttrs b ws`. -/
theorem lastVal_isSome_mem_mergeAttrs {k : String} (ws : List (String × String))
    (b : AttrBag) (h : (lastVal ws k).isSome) : k ∈ bagKeys (mergeAttrs b ws) := by
  induction ws generalizing b with
  | nil => simp [lastVal] at h
  | cons kv rest ih =>
    show k ∈ bagKeys (mergeAttrs (setAttr b kv) rest)
    rcases hr : lastVal rest k with _ | v
    · have hk : kv.1 = k := by
        simp only [lastVal, hr] at h
        by_contra hne
        simp [hne] at h
      have : k ∈ bagKeys (setAttr b kv) := hk ▸ setAttr_key_mem b kv
      exact bagKeys_mergeAttrs_superset rest (setAttr b kv) this
    · exact ih (setAttr b kv) (by simp [hr])

/-- Membership at a key other than the written one is unchanged by `setAttr`. -/
theorem setAttr_mem_ne {k v : String} (b : AttrBag) (kv : String × String)
    (hne : k ≠ kv.1) : (k, v) ∈ setAttr b kv ↔ (k, v) ∈ b := by
  unfold setAttr
  split
  · constructor
    · intro h
      rcases List.mem_map.mp h with ⟨p, hp, heq⟩
      by_cases hpk : p.1 = kv.1
      · exfalso
        rw [if_pos hpk] at heq
        have hk : p.1 = k := congrArg Prod.fst heq
        exact hne (by rw [← hk]; exact hpk)
      · rw [if_neg hpk] at heq
        exact heq ▸ hp
    · intro h
      exact List.mem_map.mpr ⟨(k, v), h, by simp [hne]⟩
  · simp only [List.mem_append, List.mem_singleton]
    constructor
    · rintro (h | h)
      · exact h
      · exact absurd (congrArg Prod.fst h) hne
    · exact fun h => Or.inl h

/-- Every entry at the written key carries the written value after `setAttr`. -/
theorem setAttr_self_val {v : String} (b : AttrBag) (kv : String × String)
    (h : (kv.1, v) ∈ setAttr b kv) : v = kv.2 := by
  unfold setAttr at h
  split at h
  · rcases List.mem_map.mp h with ⟨p, _, heq⟩
    by_cases hpk : p.1 = kv.1
    · rw [if_pos hpk] at heq
      exact (congrArg Prod.snd heq).symm
    · rw [if_neg hpk] at heq
      exact absurd (congrArg Prod.fst heq) hpk
  · next hmem =>
    rcases List.mem_append.mp h with hin | hin
    · exact absurd (List.mem_map.mpr ⟨(kv.1, v), hin, rfl⟩) hmem
    · exact congrArg Prod.snd (List.mem_singleton.mp hin)

/-- An entry whose key is never written survives `mergeAttrs` unchanged. -/
theorem mergeAttrs_mem_of_lastVal_none {k v : String} (ws : List (String × String))
    (b : AttrBag) (hnone : lastVal ws k = none)
    (h : (k, v) ∈ mergeAttrs b ws) : (k, v) ∈ b := by
  induction ws generalizing b with
  | nil => exact h
  | cons kv rest ih =>
    have hr : lastVal rest k = none := by
      rcases hx : lastVal rest k with _ | w
      · rfl
      · simp [lastVal, hx] at hnone
    have hne : k ≠ kv.1 := by
      intro hk
      simp only [lastVal, hr] at hnone
      rw [if_pos hk.symm] at hnone
      exact Option.noConfusion hnone
    have := ih (setAttr b kv) hr h
    exact (setAttr_mem_ne b kv hne).mp this

/-- Every surviving entry at a written key carries the last written value. -/
theorem mergeAttrs_val_of_lastVal_some {k v w : String} (ws : List (String × String))
    (b : AttrBag) (hsome : lastVal ws k = some w)
    (h : (k, v) ∈ mergeAttrs b ws) : v = w := by
  induction ws generalizing b with
  | nil => simp [lastVal] at hsome
  | cons kv rest ih =>
    rcases hr : lastVal rest k with _ | w'
    · have hk : kv.1 = k := by
        by_contra hne
        simp only [lastVal, hr] at hsome
        rw [if_neg hne] at hsome
        exact Option.noConfusion hsome
      have hw : w = kv.2 := by
        simp only [lastVal, hr] at hsome
        rw [if_pos hk] at hsome
        injection hsome with h'
        exact h'.symm
      have hmem : (k, v) ∈ setAttr b kv :=
        mergeAttrs_mem_of_lastVal_none rest (setAttr b kv) hr h
      rw [hw]
      exact setAttr_self_val b kv (hk ▸ hmem)
    · have hw : w' = w := by
        simp only [lastVal, hr] at hsome
        injection hsome
      exact ih (setAttr b kv) (by rw [hr, hw]) h

/-- Characterization of `mergeAttrs` on a bag that already contains every
written key: it is an in-place rewrite of each entry to the last written
value. -/
theorem mergeAttrs_eq_map_updLast (ws : List (String × String)) (b : AttrBag)
    (hcov : ∀ k, (lastVal ws k).isSome → k ∈ bagKeys b) :
    mergeAttrs b ws = b.map (updLast ws) := by
  induction ws generalizing b with
  | nil =>
    show b = b.map (updLast [])
    have h : ∀ p ∈ b, updLast [] p = p := by
      intro p _
      simp [updLast, lastVal]
    rw [List.map_congr_left h]
    exact (List.map_id b).symm
  | cons kv rest ih =>
    have hk : kv.1 ∈ bagKeys b := by
      apply hcov
      rcases hx : lastVal rest kv.1 with _ | w <;> simp [lastVal, hx]
    show mergeAttrs (setAttr b kv) rest = b.map (updLast (kv :: rest))
    have hset : setAttr b kv = b.map (fun p => if p.1 = kv.1 then (p.1, kv.2) else p) := by
      unfold setAttr
      rw [if_pos hk]
    rw [hset, ih]
    · rw [List.map_map]
      apply List.map_congr_left
      intro p _
      show updLast rest (if p.1 = kv.1 then (p.1, kv.2) else p) = updLast (kv :: rest) p
      by_cases hp : p.1 = kv.1
      · rw [if_pos hp]
        rcases hr : lastVal rest p.1 with _ | w
        · show updLast rest (p.1, kv.2) = updLast (kv :: rest) p
          unfold updLast
          simp only [lastVal, hr, if_pos hp.symm]
        · unfold updLast
          simp only [lastVal, hr]
      · rw [if_neg hp]
        unfold updLast
        have hne : kv.1 ≠ p.1 := fun h => hp h.symm
        rcases hr : lastVal rest p.1 with _ | w
        · simp only [lastVal, hr, if_neg hne]
        · simp only [lastVal, hr]
    · intro k hk'
      rw [bagKeys_map_set]
      apply hcov
      simp only [lastVal]
      rcases hx : lastVal rest k with _ | w
      · rw [hx] at hk'
        simp at hk'
      · simp [hx]

/-- Merging the same write list a second time changes nothing: the bag
resulting from `mergeAttrs b ws` is a fixed point of merging `ws`. -/
theorem mergeAttrs_idempotent (b : AttrBag) (ws : List (String × String)) :
    mergeAttrs (mergeAttrs b ws) ws = mergeAttrs b ws := by
  rw [mergeAttrs_eq_map_updLast ws (mergeAttrs b ws)
    (fun k hk => lastVal_isSome_mem_mergeAttrs ws b hk)]
  have h : ∀ p ∈ mergeAttrs b ws, updLast ws p = p := by
    intro p hp
    obtain ⟨k, v⟩ := p
    rcases hr : lastVal ws k with _ | w
    · simp [updLast, hr]
    · have hv : v = w := mergeAttrs_val_of_lastVal_some ws b hr hp
      simp [updLast, hr, hv]
  rw [List.map_congr_left h]
  exact List.map_id _

/-- Applying the same record update twice equals applying it once. -/
theorem updateRow_updateRow (row : MasterRequirement) (t : String)
    (ws : List (String × String)) :
    updateRow (updateRow row t ws) t ws = updateRow row t ws := by
  simp [updateRow, mergeAttrs_idempotent]

/-- In-place update of existing rows preserves the key sequence. -/
theorem rowKeys_map_upd (rows : List MasterRequirement) (k t : String)
    (ws : List (String × String)) :
    rowKeys (rows.map (fun row => if row.reqifId = k then updateRow row t ws else row)) =
      rowKeys rows := by
  simp only [rowKeys, List.map_map]
  apply List.map_congr_left
  intro row _
  by_cases h : row.reqifId = k <;> simp [h, updateRow]

/-- An import step never removes a key. -/
theorem importMasterStep_rowKeys_superset {k : String}
    (st : List MasterRequirement × MasterImportSummary) (r : ParsedRecord)
    (h : k ∈ rowKeys st.1) : k ∈ rowKeys (importMasterStep st r).1 := by
  rcases hr : r.reqifId with _ | k'
  · simp only [importMasterStep, hr]
    exact h
  · simp only [importMasterStep, hr]
    split
    · rwa [rowKeys_map_upd]
    · simp only [rowKeys, List.map_append, List.mem_append]
      left
      exact h

/-- Processing a record makes the row set stable for that record. -/
theorem importMasterStep_establishes (st : List MasterRequirement × MasterImportSummary)
    (r : ParsedRecord) : recStable (importMasterStep st r).1 r := by
  intro k hk
  simp only [importMasterStep, hk]
  split
  · next hmem =>
    constructor
    · rwa [rowKeys_map_upd]
    · intro row hrow hkey
      rcases List.mem_map.mp hrow with ⟨row₀, _, heq⟩
      by_cases h₀ : row₀.reqifId = k
      · rw [if_pos h₀] at heq
        rw [← heq]
        exact updateRow_updateRow row₀ r.text r.attrs
      · rw [if_neg h₀] at heq
        rw [← heq] at hkey
        exact absurd hkey h₀
  · next hmem =>
    constructor
    · simp [rowKeys]
    · intro row hrow hkey
      rcases List.mem_append.mp hrow with hin | hin
      · exact absurd (List.mem_map.mpr ⟨row, hin, hkey⟩) hmem
      · rw [List.mem_singleton.mp hin]
        simp [updateRow, mergeAttrs_idempotent]

/-- Stability for record `r` is preserved by a step on a record whose
identifier differs from `r`'s (or has none). -/
theorem importMasterStep_preserves (st : List MasterRequirement × MasterImportSummary)
    (r r' : ParsedRecord)
    (hne : ∀ k k', r.reqifId = some k → r'.reqifId = some k' → k' ≠ k)
    (h : recStable st.1 r) : recStable (importMasterStep st r').1 r := by
  intro k hk
  obtain ⟨hmem, hstab⟩ := h k hk
  refine ⟨importMasterStep_rowKeys_superset st r' hmem, ?_⟩
  intro row hrow hkey
  rcases hr' : r'.reqifId with _ | k'
  · simp only [importMasterStep, hr'] at hrow
    exact hstab row hrow hkey
  · have hkk : k' ≠ k := hne k k' hk hr'
    simp only [importMasterStep, hr'] at hrow
    split at hrow
    · rcases List.mem_map.mp hrow with ⟨row₀, h₀, heq⟩
      by_cases hc : row₀.reqifId = k'
      · rw [if_pos hc] at heq
        rw [← heq] at hkey
        exact absurd (hc ▸ hkey : k' = k) hkk
      · rw [if_neg hc] at heq
        exact hstab row (heq ▸ h₀) hkey
    · rcases List.mem_append.mp hrow with hin | hin
      · exact hstab row hin hkey
      · rw [List.mem_singleton.mp hin] at hkey
        exact absurd hkey hkk

/-- Stability for record `r` is preserved by folding any list of records
whose identifiers all differ from `r`'s. -/
theorem importMaster_foldl_preserves (recs : List ParsedRecord)
    (st : List MasterRequirement × MasterImportSummary) (r : ParsedRecord)
    (hne : ∀ r' ∈ recs, ∀ k k', r.reqifId = some k → r'.reqifId = some k' → k' ≠ k)
    (h : recStable st.1 r) :
    recStable (recs.foldl importMasterStep st).1 r := by
  induction recs generalizing st with
  | nil => exact h
  | cons r' rest ih =>
    exact ih (importMasterStep st r')
      (fun r'' h'' => hne r'' (List.mem_cons_of_mem r' h''))
      (importMasterStep_preserves st r r' (hne r' (List.mem_cons_self r' rest)) h)

/-- After importing a batch with pairwise-distinct resolved identifiers,
the resulting row set is stable for every record of the batch. -/
theorem importMaster_foldl_establishes (recs : List ParsedRecord)
    (st : List MasterRequirement × MasterImportSummary)
    (hnodup : (recs.filterMap ParsedRecord.reqifId).Nodup) :
    ∀ r ∈ recs, recStable (recs.foldl importMasterStep st).1 r := by
  induction recs generalizing st with
  | nil => intro r hr; exact absurd hr (List.not_mem_nil r)
  | cons r rest ih =>
    have htail : (rest.filterMap ParsedRecord.reqifId).Nodup := by
      rcases hr : r.reqifId with _ | k
      · rwa [List.filterMap_cons, hr] at hnodup
      · rw [List.filterMap_cons, hr] at hnodup
        exact hnodup.of_cons
    intro r' hr'
    rcases List.mem_cons.mp hr' with heq | hmem
    · subst heq
      rw [List.foldl_cons]
      apply importMaster_foldl_preserves
      · intro r'' h'' k k' hk hk'
        rcases hx : r'.reqifId with _ | kr
        · rw [hx] at hk
          exact absurd hk (by simp)
        · rw [hx] at hk
          injection hk with hkeq
          rw [List.filterMap_cons, hx] at hnodup
          have hnotin : kr ∉ rest.filterMap ParsedRecord.reqifId :=
            (List.nodup_cons.mp hnodup).1
          intro he
          apply hnotin
          rw [hkeq, ← he]
          exact List.mem_filterMap.mpr ⟨r'', h'', hk'⟩
      · exact importMasterStep_establishes st r'
    · rw [List.foldl_cons]
      exact ih (importMasterStep st r) htail r' hmem

/-- A step on a record for which the row set is already stable leaves the
rows unchanged, never counts the record as created, and counts it as
updated exactly when it has an identifier. -/
theorem importMasterStep_stable (rows : List MasterRequirement)
    (s : MasterImportSummary) (r : ParsedRecord) (h : recStable rows r) :
    (importMasterStep (rows, s) r).1 = rows ∧
    (importMasterStep (rows, s) r).2.created = s.created ∧
    (importMasterStep (rows, s) r).2.updated =
      s.updated + (if r.reqifId.isSome then 1 else 0) := by
  rcases hr : r.reqifId with _ | k
  · simp [importMasterStep, hr]
  · obtain ⟨hmem, hstab⟩ := h k hr
    simp only [importMasterStep, hr]
    rw [if_pos hmem]
    refine ⟨?_, rfl, by simp⟩
    have hid : ∀ row ∈ rows,
        (if row.reqifId = k then updateRow row r.text r.attrs else row) = row := by
      intro row hrow
      by_cases hc : row.reqifId = k
      · rw [if_pos hc]
        exact hstab row hrow hc
      · rw [if_neg hc]
    show rows.map _ = rows
    rw [List.map_congr_left hid]
    exact List.map_id rows

/-- Folding a batch over a row set that is stable for every record of the
batch leaves the rows unchanged, adds nothing to `created`, and counts
every identified record as updated. -/
theorem importMaster_foldl_stable :
    ∀ (recs : List ParsedRecord) (rows : List MasterRequirement)
      (s : MasterImportSummary), (∀ r ∈ recs, recStable rows r) →
    (recs.foldl importMasterStep (rows, s)).1 = rows ∧
    (recs.foldl importMasterStep (rows, s)).2.created = s.created ∧
    (recs.foldl importMasterStep (rows, s)).2.updated =
      s.updated + (recs.filterMap ParsedRecord.reqifId).length := by
  intro recs
  induction recs with
  | nil =>
    intro rows s _
    exact ⟨rfl, rfl, by simp⟩
  | cons r rest ih =>
    intro rows s h
    obtain ⟨h1, h2, h3⟩ :=
      importMasterStep_stable rows s r (h r (List.mem_cons_self r rest))
    have hpair : importMasterStep (rows, s) r =
        (rows, (importMasterStep (rows, s) r).2) :=
      Prod.ext h1 rfl
    rw [List.foldl_cons, hpair]
    obtain ⟨g1, g2, g3⟩ := ih rows (importMasterStep (rows, s) r).2
      (fun r' hr' => h r' (List.mem_cons_of_mem r hr'))
    refine ⟨g1, by rw [g2, h2], ?_⟩
    rw [g3, h3, List.filterMap_cons]
    rcases hr : r.reqifId with _ | k
    · simp [hr]
    · simp only [hr, Option.isSome_some, if_pos, List.length_cons]
      omega

/-- C6: master import is idempotent. For any prior row state and any
master document whose records carry pairwise-distinct resolved
identifiers, importing the document a second time leaves the
MasterRequirement rows identical (so no duplicates are created), reports
`created = 0` on the second pass, and counts every identified record as
updated. -/
theorem importMaster_idempotent (rows : List MasterRequirement)
    (recs : List ParsedRecord)
    (hnodup : (recs.filterMap ParsedRecord.reqifId).Nodup) :
    (importMaster (importMaster rows recs).1 recs).1 = (importMaster rows recs).1 ∧
    (importMaster (importMaster rows recs).1 recs).2.created = 0 ∧
    (importMaster (importMaster rows recs).1 recs).2.updated =
      (recs.filterMap ParsedRecord.reqifId).length := by
  have hst : ∀ r ∈ recs, recStable (importMaster rows recs).1 r :=
    importMaster_foldl_establishes recs
      (rows, { created := 0, updated := 0, skipped := 0, warnings := [] }) hnodup
  obtain ⟨h1, h2, h3⟩ := importMaster_foldl_stable recs (importMaster rows recs).1
    { created := 0, updated := 0, skipped := 0, warnings := [] } hst
  exact ⟨h1, h2, h3.trans (Nat.zero_add _)⟩

/-- Witness for C6: on a concrete two-record master document imported into
an empty project twice, the second pass changes no rows and reports
`created = 0` with both records counted as updated. -/
theorem importMaster_idempotent_witness :
    (sampleMasterRecs.filterMap ParsedRecord.reqifId).Nodup ∧
    ((importMaster (importMaster [] sampleMasterRecs).1 sampleMasterRecs).1 =
        (importMaster [] sampleMasterRecs).1 ∧
      (importMaster (importMaster [] sampleMasterRecs).1 sampleMasterRecs).2.created = 0 ∧
      (importMaster (importMaster [] sampleMasterRecs).1 sampleMasterRecs).2.updated =
        (sampleMasterRecs.filterMap ParsedRecord.reqifId).length) :=
  ⟨by decide, importMaster_idempotent [] sampleMasterRecs (by decide)⟩

/-- C4: `detect` flags a conflict iff at least two distinct suppliers
report different non-Accepted canonical statuses; consequently a feedback
set whose statuses are all identical never flags, and a feedback set whose
rows all come from one supplier never flags (which covers the
two-suppliers-both-Rejected, all-Accepted and single-supplier cases). -/
theorem detect_isConflict_spec (rows : List HarmonizedFeedback) :
    ((detect rows).isConflict = true ↔
      ∃ r₁ ∈ rows, ∃ r₂ ∈ rows,
        r₁.supplier ≠ r₂.supplier ∧
        r₁.status ≠ CanonicalStatus.Accepted ∧
        r₂.status ≠ CanonicalStatus.Accepted ∧
        r₁.status ≠ r₂.status) ∧
    ((∃ s, ∀ r ∈ rows, r.status = s) → (detect rows).isConflict = false) ∧
    ((∃ sup, ∀ r ∈ rows, r.supplier = sup) → (detect rows).isConflict = false) := by
  have hiff : (detect rows).isConflict = true ↔
      ∃ r₁ ∈ rows, ∃ r₂ ∈ rows,
        r₁.supplier ≠ r₂.supplier ∧
        r₁.status ≠ CanonicalStatus.Accepted ∧
        r₂.status ≠ CanonicalStatus.Accepted ∧
        r₁.status ≠ r₂.status := by
    simp only [detect, List.any_eq_true, disagrees, Bool.and_eq_true, bne_iff_ne,
      and_assoc]
  refine ⟨hiff, ?_, ?_⟩
  · rintro ⟨s, hs⟩
    rw [← Bool.not_eq_true, hiff]
    rintro ⟨r₁, h₁, r₂, h₂, _, _, _, hst⟩
    exact hst ((hs r₁ h₁).trans (hs r₂ h₂).symm)
  · rintro ⟨sup, hs⟩
    rw [← Bool.not_eq_true, hiff]
    rintro ⟨r₁, h₁, r₂, h₂, hsup, _, _, _⟩
    exact hsup ((hs r₁ h₁).trans (hs r₂ h₂).symm)

/-- Witness for C4: supplier A reporting Rejected against supplier B
reporting ClarificationNeeded is a conflict (spec Scenario B), while both
reporting Rejected is not (spec Scenario C). -/
theorem detect_isConflict_spec_witness :
    (detect [⟨"A", CanonicalStatus.Rejected⟩,
             ⟨"B", CanonicalStatus.ClarificationNeeded⟩]).isConflict = true ∧
    (detect [⟨"A", CanonicalStatus.Rejected⟩,
             ⟨"B", CanonicalStatus.Rejected⟩]).isConflict = false := by
  constructor
  · exact (detect_isConflict_spec
      [⟨"A", CanonicalStatus.Rejected⟩,
       ⟨"B", CanonicalStatus.ClarificationNeeded⟩]).1.mpr
      ⟨⟨"A", CanonicalStatus.Rejected⟩, by decide,
       ⟨"B", CanonicalStatus.ClarificationNeeded⟩, by decide,
       by decide, by decide, by decide, by decide⟩
  · exact (detect_isConflict_spec
      [⟨"A", CanonicalStatus.Rejected⟩,
       ⟨"B", CanonicalStatus.Rejected⟩]).2.1
      ⟨CanonicalStatus.Rejected, by decide⟩

/-- C5: the status harmonizer is deterministic: for a fixed rule set, raw
status string and supplier id, two evaluations of `normalize` yield the
same (canonicalStatus, matched) pair. In the model `normalize` is a pure
total function of exactly these arguments — faithful to the spec's
requirement that rule lookup is side-effect-free — so the two runs are
definitionally equal. -/
theorem normalize_deterministic (rules : List StatusMappingRule)
    (rawStatus supplierId : String) :
    normalize rules rawStatus supplierId = normalize rules rawStatus supplierId := rfl

/-- The wizard loop commits a leading run of the files: its visible row state
equals the sequential commits of the longest run of parsed files before
the first malformed one. -/
theorem supplierWizardLoop_commits_leading_run (masterKeys : List String)
    (rules : List StatusMappingRule) (iterationId : String) :
    ∀ (files : List SupplierFile) (db : List SupplierFeedback) (total : Nat),
    ∃ pre post,
      files = pre ++ post ∧
      (supplierWizardLoop masterKeys rules iterationId db total files).1 =
        commitFiles masterKeys rules iterationId db pre ∧
      (∀ f ∈ pre, ∃ s recs, f = SupplierFile.parsed s recs) ∧
      (post = [] ∨ ∃ s e rest, post = SupplierFile.malformed s e :: rest) := by
  intro files
  induction files with
  | nil =>
    intro db total
    exact ⟨[], [], rfl, rfl, by simp, Or.inl rfl⟩
  | cons f rest ih =>
    intro db total
    cases f with
    | parsed s recs =>
      rcases himp : importSupplierFeedback masterKeys rules db iterationId
          (SupplierFile.parsed s recs) with e | p
      · exfalso
        simp [importSupplierFeedback] at himp
      · obtain ⟨pre, post, h1, h2, h3, h4⟩ := ih p.1 (total + p.2)
        refine ⟨SupplierFile.parsed s recs :: pre, post, by rw [List.cons_append, h1],
          ?_, ?_, h4⟩
        · have hloop : supplierWizardLoop masterKeys rules iterationId db total
              (SupplierFile.parsed s recs :: rest) =
              supplierWizardLoop masterKeys rules iterationId p.1 (total + p.2) rest := by
            simp only [supplierWizardLoop, himp]
          have hcommit : commitFile masterKeys rules iterationId db
              (SupplierFile.parsed s recs) = p.1 := by
            simp only [commitFile, himp]
          show _ = commitFiles masterKeys rules iterationId db (SupplierFile.parsed s recs :: pre)
          rw [hloop, commitFiles, List.foldl_cons, hcommit]
          exact h2
        · intro f hf
          rcases List.mem_cons.mp hf with heq | hmem
          · exact ⟨s, recs, heq⟩
          · exact h3 f hmem
    | malformed s e =>
      refine ⟨[], SupplierFile.malformed s e :: rest, rfl, ?_, by simp,
        Or.inr ⟨s, e, rest, rfl⟩⟩
      show (supplierWizardLoop masterKeys rules iterationId db total
        (SupplierFile.malformed s e :: rest)).1 = commitFiles masterKeys rules iterationId db []
      simp [supplierWizardLoop, importSupplierFeedback, commitFiles]

/-- C1 (amended): each backend import call is atomic per call — a
malformed file returns an error and commits nothing — but the wizard
issues one call per file of a multi-file import, so after an error
partway through, the visible feedback state equals the commits of every
file that preceded the failing one. -/
theorem supplierImport_atomic_calls_earlier_files_visible (masterKeys : List String)
    (rules : List StatusMappingRule) (db : List SupplierFeedback)
    (iterationId : String) (files : List SupplierFile)
    (hiter : iterationId ≠ "") :
    (∀ (db₀ : List SupplierFeedback) (s e : String),
      importSupplierFeedback masterKeys rules db₀ iterationId
        (SupplierFile.malformed s e) = Except.error e) ∧
    ∃ pre post,
      files = pre ++ post ∧
      (supplierWizardHandleImport masterKeys rules db iterationId files).1 =
        commitFiles masterKeys rules iterationId db pre ∧
      (∀ f ∈ pre, ∃ s recs, f = SupplierFile.parsed s recs) ∧
      (post = [] ∨ ∃ s e rest, post = SupplierFile.malformed s e :: rest) := by
  refine ⟨fun db₀ s e => rfl, ?_⟩
  cases files with
  | nil =>
    refine ⟨[], [], rfl, ?_, by simp, Or.inl rfl⟩
    simp [supplierWizardHandleImport, commitFiles]
  | cons f rest =>
    have hguard : ¬((f :: rest).isEmpty = true ∨ iterationId = "") := by
      simp [hiter]
    obtain ⟨pre, post, h1, h2, h3, h4⟩ :=
      supplierWizardLoop_commits_leading_run masterKeys rules iterationId (f :: rest) db 0
    refine ⟨pre, post, h1, ?_, h3, h4⟩
    show (supplierWizardHandleImport masterKeys rules db iterationId (f :: rest)).1 = _
    unfold supplierWizardHandleImport
    rw [if_neg hguard]
    exact h2

/-- Witness for the amended C1: a concrete single-file import with a
non-empty iteration id instantiates the leading-run visibility account. -/
theorem supplierImport_atomic_calls_earlier_files_visible_witness :
    ("I-001" : String) ≠ "" ∧
    ((∀ (db₀ : List SupplierFeedback) (s e : String),
      importSupplierFeedback ["R1"] [] db₀ "I-001"
        (SupplierFile.malformed s e) = Except.error e) ∧
    ∃ pre post,
      ([SupplierFile.malformed "Acme" "bad"] : List SupplierFile) = pre ++ post ∧
      (supplierWizardHandleImport ["R1"] [] [] "I-001"
        [SupplierFile.malformed "Acme" "bad"]).1 =
        commitFiles ["R1"] [] "I-001" [] pre ∧
      (∀ f ∈ pre, ∃ s recs, f = SupplierFile.parsed s recs) ∧
      (post = [] ∨ ∃ s e rest, post = SupplierFile.malformed s e :: rest)) :=
  ⟨by decide,
   supplierImport_atomic_calls_earlier_files_visible ["R1"] [] [] "I-001"
     [SupplierFile.malformed "Acme" "bad"] (by decide)⟩

/-- Counterexample to C1 as stated: in a two-file supplier import whose
second file fails, the feedback imported from the first file remains
visible while the wizard reports the error — so an error partway through
a multi-file import does not hide the feedback of earlier files. -/
theorem supplierImport_earlier_file_visible_counterexample :
    (supplierWizardHandleImport ["R1"] [] [] "I-001"
      [SupplierFile.parsed "Acme" [{ reqifId := "R1", rawStatus := "OK", comment := "fine" }],
       SupplierFile.malformed "Beta" "not well-formed"]).1 =
      [{ reqifId := "R1", iterationId := "I-001", supplier := "Acme",
         rawStatus := "OK", canonicalStatus := CanonicalStatus.Accepted,
         comment := "fine" }] ∧
    (supplierWizardHandleImport ["R1"] [] [] "I-001"
      [SupplierFile.parsed "Acme" [{ reqifId := "R1", rawStatus := "OK", comment := "fine" }],
       SupplierFile.malformed "Beta" "not well-formed"]).2 =
      "Error importing files: not well-formed" := by
  constructor <;> decide

/-- C2 (at the failing input): the wizards consume the backend import
result as a single scalar count — the master wizard interpolates it into
its summary sentence, and the supplier wizard sums the per-file results
as numbers — not as a structured summary record. -/
theorem importResult_consumed_as_scalar :
    masterImportSummaryMessage 3 = "Successfully imported 3 requirements." ∧
    (supplierWizardHandleImport ["R1"] [] [] "I-001"
        [SupplierFile.parsed "Acme" [{ reqifId := "R1", rawStatus := "agreed", comment := "" }],
         SupplierFile.parsed "Beta" [{ reqifId := "R1", rawStatus := "agreed", comment := "" }]]).2 =
      "Successfully imported feedback for 2 requirements." := by
  constructor <;> decide

/-- Counterexample to C3 as stated: the decision panel offers `Modified`
for selection and the filter toolbar offers `Conflict`, neither of which
is in the closed canonical status set. -/
theorem canonicalStatus_closed_counterexample :
    "Modified" ∈ decisionPanelStatusOptions ∧
    "Modified" ∉ canonicalStatusStrings ∧
    "Conflict" ∈ filterToolbarStatusOptions ∧
    "Conflict" ∉ canonicalStatusStrings := by
  decide

/-- C3 (amended): every status the harmonizer produces lies in the closed
canonical set, but the UI selection surfaces offer values outside it: the
decision panel offers `Modified` and `Deferred`, the filter toolbar
offers `Conflict` and spells `Clarification Needed` with a space — the
spelling the status cell renderer colors, while the canonical spelling
falls through to gray. -/
theorem canonicalStatus_closed_amended :
    (∀ (rules : List StatusMappingRule) (raw sup : String),
      (normalize rules raw sup).1.asString ∈ canonicalStatusStrings) ∧
    decisionPanelStatusOptions = ["", "Accepted", "Rejected", "Modified", "Deferred"] ∧
    filterToolbarStatusOptions = ["", "Accepted", "Clarification Needed", "Rejected", "Conflict"] ∧
    statusCellColor "ClarificationNeeded" = "gray" ∧
    statusCellColor "Clarification Needed" = "yellow" := by
  refine ⟨?_, rfl, rfl, rfl, rfl⟩
  intro rules raw sup
  cases h : (normalize rules raw sup).1 <;>
    simp [CanonicalStatus.asString, canonicalStatusStrings]

/-- Projecting the first components of a tagging map recovers the list. -/
theorem map_fst_map_pair {α β : Type} (l : List α) (g : α → β) :
    (l.map (fun a => (a, g a))).map Prod.fst = l := by
  induction l with
  | nil => rfl
  | cons a t ih => simp [ih]

/-- C7: every row of the aggregation view carries one supplier entry per
supplier of the project, in the same order — so the key set of the
suppliers mapping is identical across all rows — and a supplier without
feedback for the row's requirement gets the empty sub-record, never an
absent key. -/
theorem buildView_supplier_keys (masterRows : List MasterRequirement)
    (suppliers : List String) (feedback : List SupplierFeedback)
    (decisions : List Decision) (iterationId : String) (f : ViewFilters)
    (row : RequirementRow)
    (h : row ∈ buildView masterRows suppliers feedback decisions iterationId f) :
    row.suppliers.map Prod.fst = suppliers ∧
    ∀ s ∈ suppliers,
      feedback.find? (fun fb => fb.reqifId == row.reqifId &&
        fb.iterationId == iterationId && fb.supplier == s) = none →
      (s, emptyCell) ∈ row.suppliers := by
  have hmem : row ∈ joinedRows masterRows suppliers feedback decisions iterationId :=
    List.mem_of_mem_filter h
  rcases List.mem_map.mp hmem with ⟨req, _, heq⟩
  subst heq
  constructor
  · exact map_fst_map_pair suppliers _
  · intro s hs hnone
    simp only [buildRow] at hnone ⊢
    apply List.mem_map.mpr
    refine ⟨s, hs, ?_⟩
    rw [hnone]

/-- Witness for C7: in a concrete one-requirement view over suppliers
Acme and Beta with no feedback, the single row's supplier keys are
exactly the supplier list. -/
theorem buildView_supplier_keys_witness :
    (buildRow ["Acme", "Beta"] [] [] "I-001"
      { reqifId := "R1", text := "text", attrs := [] }).suppliers.map Prod.fst =
      ["Acme", "Beta"] :=
  (buildView_supplier_keys [{ reqifId := "R1", text := "text", attrs := [] }]
    ["Acme", "Beta"] [] [] "I-001"
    { text := none, status := none, conflictOnly := false, visibleSuppliers := none }
    (buildRow ["Acme", "Beta"] [] [] "I-001"
      { reqifId := "R1", text := "text", attrs := [] })
    (by decide)).1

/-- C8: view filters are pure post-join predicates with AND semantics,
hence monotone — every row returned under the conjunction of two filter
predicates is also returned under the first filter alone. -/
theorem buildView_filter_and_subset (masterRows : List MasterRequirement)
    (suppliers : List String) (feedback : List SupplierFeedback)
    (decisions : List Decision) (iterationId : String) (f₁ f₂ : ViewFilters)
    (row : RequirementRow)
    (h : row ∈ buildViewWith masterRows suppliers feedback decisions iterationId
      (fun r => filterPred f₁ r && filterPred f₂ r)) :
    row ∈ buildView masterRows suppliers feedback decisions iterationId f₁ := by
  simp only [buildView, buildViewWith, List.mem_filter, Bool.and_eq_true] at h ⊢
  exact ⟨h.1, h.2.1⟩

/-- Witness for C8: a concrete row surviving the conjunction of two
filters also survives the first filter alone. -/
theorem buildView_filter_and_subset_witness :
    buildRow ["Acme"] [] [] "I-001" { reqifId := "R1", text := "text", attrs := [] } ∈
      buildView [{ reqifId := "R1", text := "text", attrs := [] }] ["Acme"] [] []
        "I-001" { text := none, status := none, conflictOnly := false,
                  visibleSuppliers := none } :=
  buildView_filter_and_subset [{ reqifId := "R1", text := "text", attrs := [] }]
    ["Acme"] [] [] "I-001"
    { text := none, status := none, conflictOnly := false, visibleSuppliers := none }
    { text := none, status := none, conflictOnly := false, visibleSuppliers := none }
    (buildRow ["Acme"] [] [] "I-001" { reqifId := "R1", text := "text", attrs := [] })
    (by decide)

/-- C9: `api.listRecentProjects` never propagates an error: a rejected
backend call or a failed parse yields the empty list, and a successful
parse yields the parsed list — for every backend outcome the function
returns a list. -/
theorem listRecentProjects_never_propagates (outcome : Except String String)
    (parse : String → Except String (List Project)) :
    (∀ e, outcome = Except.error e → listRecentProjects outcome parse = []) ∧
    (∀ s e, outcome = Except.ok s → parse s = Except.error e →
      listRecentProjects outcome parse = []) ∧
    (∀ s ps, outcome = Except.ok s → parse s = Except.ok ps →
      listRecentProjects outcome parse = ps) := by
  refine ⟨?_, ?_, ?_⟩
  · intro e he
    rw [he]
    rfl
  · intro s e ho hp
    rw [ho]
    simp [listRecentProjects, hp]
  · intro s ps ho hp
    rw [ho]
    simp [listRecentProjects, hp]

/-- Witness for C9: a concrete rejected backend call yields the empty
list. -/
theorem listRecentProjects_never_propagates_witness :
    listRecentProjects (Except.error "ipc failure")
      (fun _ => Except.ok ([] : List Project)) = [] :=
  (listRecentProjects_never_propagates (Except.error "ipc failure")
    (fun _ => Except.ok [])).1 "ipc failure" rfl

/-- C10: the iteration dialog submits iff the entered identifier matches
the well-formedness pattern: on a match `onSubmit` receives exactly the
entered string and `onClose` follows; on a non-match neither is invoked
and the error message is set. -/
theorem handleSubmit_validates (s : String) :
    ((handleSubmit s).submitted = some s ∧ (handleSubmit s).closed = true ↔
      iterationIdWellFormed s = true) ∧
    (iterationIdWellFormed s = false →
      (handleSubmit s).submitted = none ∧ (handleSubmit s).closed = false ∧
      (handleSubmit s).errorMessage = some "Invalid format. Must be I-XXX_Description") := by
  by_cases h : iterationIdWellFormed s = true
  · simp [handleSubmit, h]
  · simp [handleSubmit, h]

/-- Witness for C10: the documented example identifier submits and
closes; a malformed identifier submits nothing, keeps the dialog open and
sets the error message. -/
theorem handleSubmit_validates_witness :
    ((handleSubmit "I-001_Initial_Feedback").submitted = some "I-001_Initial_Feedback" ∧
      (handleSubmit "I-001_Initial_Feedback").closed = true) ∧
    ((handleSubmit "I001").submitted = none ∧ (handleSubmit "I001").closed = false ∧
      (handleSubmit "I001").errorMessage = some "Invalid format. Must be I-XXX_Description") :=
  ⟨(handleSubmit_validates "I-001_Initial_Feedback").1.mpr (by decide),
   (handleSubmit_validates "I001").2 (by decide)⟩

end ReqCockpit
